import Mathlib

/-!
Verification development for the TextTopo DOCX-to-text pipeline.

This file shallowly embeds the Python source of the repository:
`DOCXToText/Extractors/DOCXExtractor.py`, `DOCXToText/Converters/Repair.py`,
`DOCXToText/config.py`, `DOCXToText/Pipeline/Batch.py` and
`ExtractText.py`.  Pure text processing is modelled as Lean functions over
`String` / `List Char`; filesystem and subprocess interaction is modelled by
explicit environment records and state passing.  Whitespace is modelled as the
six ASCII whitespace characters recognised by Python's `str.strip` and `\s`
on ASCII text.
-/

/-- The six ASCII whitespace characters matched by Python `\s` and stripped
by `str.strip` (ASCII fragment of the Unicode whitespace class). -/
def isPySpace (c : Char) : Bool :=
  c == ' ' || c == '\t' || c == '\n' || c == '\r' || c == '\x0b' || c == '\x0c'

/-- Python `str.strip()` on ASCII text: drop leading and trailing whitespace. -/
def pyStrip (s : String) : String :=
  (((s.data.dropWhile isPySpace).reverse.dropWhile isPySpace).reverse).asString

/-- Python `''.join(parts)` / run-wise `+=` concatenation. -/
def concatStrs (l : List String) : String := l.foldl (· ++ ·) ""

/-- Bool infix test on char lists (no library version in this toolchain). -/
def infixOfChars (needle : List Char) : List Char → Bool
  | [] => needle.isEmpty
  | c :: cs => needle.isPrefixOf (c :: cs) || infixOfChars needle cs

/-- Python `sub in s` substring test. -/
def strContains (s sub : String) : Bool := infixOfChars sub.data s.data

/-- Python `s.startswith(p)`. -/
def strStartsWith (s p : String) : Bool := p.data.isPrefixOf s.data

/-- Python `s.endswith(p)`. -/
def strEndsWith (s p : String) : Bool := p.data.isSuffixOf s.data

/-- ASCII `str.lower` on one character. -/
def lowerChar (c : Char) : Char :=
  if 65 ≤ c.toNat ∧ c.toNat ≤ 90 then Char.ofNat (c.toNat + 32) else c

/-- Helper: concatMap over a list (Python nested list building). -/
def listFlat (l : List α) (f : α → List β) : List β := (l.map f).flatten

theorem dropWhile_length_le (p : α → Bool) (l : List α) :
    (l.dropWhile p).length ≤ l.length := by
  induction l with
  | nil => simp
  | cons c cs ih =>
    rw [List.dropWhile_cons]
    by_cases h : p c = true
    · simp only [h, if_true]
      exact Nat.le_trans ih (Nat.le_succ _)
    · simp [h]

/-!
### Placeholder normalization (`ExtractText.py`)

`placeholder_re = re.compile(r"\{\s*([^\x7b\x7d\s].*?)\s*\}")` and
`placeholder_re.sub(r'\1', text)`.  The regex semantics on ASCII text,
derived by hand from Python's leftmost, non-greedy matching:

* a match starts at a literal `{`;
* `\s*` then `[^...]` force: skip the whitespace run after `{`; the first
  non-whitespace character must exist and be neither brace;
* `.*?` then `\s*` then `}` force: extend the inner text one character at a
  time (`.` never matches a newline) until the remaining text, after a run
  of whitespace, starts with `}`;
* group 1 (kept by the substitution) is the first character plus the inner
  extension; scanning resumes after the closing `}`.
-/

/-- After the inner text: does a whitespace run followed by `}` start here?
Returns the remainder after that `}` when it does. -/
def phCloseCheck (cs : List Char) : Option (List Char) :=
  match cs.dropWhile isPySpace with
  | '}' :: rest => some rest
  | _ => none

/-- Scan the non-greedy `.*?\s*\}` tail: returns (inner text, text after `}`). -/
def phScanInner : List Char → Option (List Char × List Char)
  | [] => none
  | c :: cs =>
    match phCloseCheck (c :: cs) with
    | some rest => some ([], rest)
    | none =>
      if c == '\n' then none
      else (phScanInner cs).map (fun gr => (c :: gr.1, gr.2))

/-- Try to match the placeholder regex right after an opening `{`:
returns (group 1, text after the closing `}`). -/
def phMatch (cs : List Char) : Option (List Char × List Char) :=
  match cs.dropWhile isPySpace with
  | [] => none
  | c :: cs2 =>
    if c == '{' || c == '}' then none
    else (phScanInner cs2).map (fun gr => (c :: gr.1, gr.2))



theorem phScanInner_length : ∀ cs g r, phScanInner cs = some (g, r) → r.length < cs.length := by
  intro cs
  induction cs with
  | nil => intro g r h; simp [phScanInner] at h
  | cons c cs ih =>
    intro g r h
    unfold phScanInner at h
    split at h
    · next rest hcc =>
      simp only [Option.some.injEq, Prod.mk.injEq] at h
      obtain ⟨_, hr⟩ := h
      subst hr
      unfold phCloseCheck at hcc
      have hdw : (List.dropWhile isPySpace (c :: cs)).length ≤ (c :: cs).length :=
        dropWhile_length_le _ _
      split at hcc
      · next heq =>
        simp only [Option.some.injEq] at hcc
        subst hcc
        rw [heq] at hdw
        simp only [List.length_cons] at hdw ⊢
        omega
      · exact absurd hcc (by simp)
    · next hcc =>
      split at h
      · exact absurd h (by simp)
      · simp only [Option.map_eq_some'] at h
        obtain ⟨⟨g', r'⟩, hg', heq⟩ := h
        simp only [Prod.mk.injEq] at heq
        obtain ⟨_, hr⟩ := heq
        subst hr
        exact Nat.lt_trans (ih _ _ hg') (Nat.lt_succ_self _)

theorem phMatch_length : ∀ cs g r, phMatch cs = some (g, r) → r.length < cs.length := by
  intro cs g r h
  unfold phMatch at h
  have hdw : (List.dropWhile isPySpace cs).length ≤ cs.length :=
    dropWhile_length_le _ _
  split at h
  · exact absurd h (by simp)
  · next c cs2 hdrop =>
    split at h
    · exact absurd h (by simp)
    · simp only [Option.map_eq_some'] at h
      obtain ⟨⟨g', r'⟩, hg', heq⟩ := h
      simp only [Prod.mk.injEq] at heq
      obtain ⟨_, hr⟩ := heq
      subst hr
      have h1 := phScanInner_length cs2 g' r' hg'
      rw [hdrop] at hdw
      simp only [List.length_cons] at hdw
      omega

/-- Fuel-indexed scan of `re.sub(r'\1', ...)` over the text.  With fuel at
least the length of the text this computes the substitution exactly. -/
def normCharsF : Nat → List Char → List Char
  | 0, cs => cs
  | _ + 1, [] => []
  | fuel + 1, c :: cs =>
    if c == '{' then
      match phMatch cs with
      | some (g, rest) => g ++ normCharsF fuel rest
      | none => c :: normCharsF fuel cs
    else c :: normCharsF fuel cs

theorem normCharsF_irrel : ∀ f₁ f₂ cs, cs.length ≤ f₁ → cs.length ≤ f₂ →
    normCharsF f₁ cs = normCharsF f₂ cs := by
  intro f₁
  induction f₁ with
  | zero =>
    intro f₂ cs h1 _
    have : cs = [] := List.eq_nil_of_length_eq_zero (Nat.le_zero.mp h1)
    subst this
    cases f₂ <;> rfl
  | succ f₁ ih =>
    intro f₂ cs h1 h2
    cases cs with
    | nil => cases f₂ <;> rfl
    | cons c cs =>
      cases f₂ with
      | zero => simp at h2
      | succ f₂ =>
        simp only [List.length_cons, Nat.succ_le_succ_iff] at h1 h2
        simp only [normCharsF]
        cases hc : c == '{' with
        | true =>
          simp only [hc, if_true]
          cases hpm : phMatch cs with
          | none => simp only [ih f₂ cs h1 h2]
          | some gr =>
            obtain ⟨g, rest⟩ := gr
            have hlen := phMatch_length cs g rest hpm
            simp only [ih f₂ rest (by omega) (by omega)]
        | false =>
          simp only [hc, Bool.false_eq_true, if_false, ih f₂ cs h1 h2]

/-- `placeholder_re.sub(r'\1', text)` from `ExtractText.py`. -/
def normalize_placeholders (s : String) : String :=
  (normCharsF s.data.length s.data).asString

/-- Well-formedness of a placeholder's inner name: nonempty, no braces, no
whitespace (so that the regex consumes exactly this name). -/
def phValidName (nameL : List Char) : Prop :=
  nameL ≠ [] ∧ ∀ c ∈ nameL, c ≠ '{' ∧ c ≠ '}' ∧ isPySpace c = false

theorem phScanInner_exact : ∀ nmL restL : List Char,
    (∀ c ∈ nmL, c ≠ '{' ∧ c ≠ '}' ∧ isPySpace c = false) →
    phScanInner (nmL ++ '}' :: restL) = some (nmL, restL) := by
  intro nmL
  induction nmL with
  | nil =>
    intro restL _
    rw [List.nil_append]
    unfold phScanInner phCloseCheck
    rw [List.dropWhile_cons_of_neg (by decide)]
    rfl
  | cons d ds ih =>
    intro restL h
    obtain ⟨hd1, hd2, hd3⟩ := h d (by simp)
    have hds : ∀ c ∈ ds, c ≠ '{' ∧ c ≠ '}' ∧ isPySpace c = false := by
      intro c hc; exact h c (by simp [hc])
    rw [List.cons_append]
    unfold phScanInner
    have hclose : phCloseCheck (d :: (ds ++ '}' :: restL)) = none := by
      unfold phCloseCheck
      rw [List.dropWhile_cons_of_neg (by simp [hd3])]
      simp [hd2]
    rw [hclose]
    have hdn : (d == '\n') = false := by
      simp only [beq_eq_false_iff_ne, ne_eq]
      intro hdd; subst hdd; simp [isPySpace] at hd3
    rw [hdn]
    simp only [Bool.false_eq_true, if_false, ih restL hds, Option.map_some']

theorem phMatch_exact : ∀ nameL restL : List Char, phValidName nameL →
    phMatch (nameL ++ '}' :: restL) = some (nameL, restL) := by
  intro nameL restL h
  obtain ⟨hne, hall⟩ := h
  cases nameL with
  | nil => exact absurd rfl hne
  | cons n₀ nmL =>
    obtain ⟨h1, h2, h3⟩ := hall n₀ (by simp)
    have hnm : ∀ c ∈ nmL, c ≠ '{' ∧ c ≠ '}' ∧ isPySpace c = false := by
      intro c hc; exact hall c (by simp [hc])
    unfold phMatch
    rw [List.cons_append, List.dropWhile_cons_of_neg (by simp [h3])]
    have hcond : (n₀ == '{' || n₀ == '}') = false := by
      simp [h1, h2]
    dsimp only
    rw [hcond]
    simp only [Bool.false_eq_true, if_false, phScanInner_exact nmL restL hnm, Option.map_some']

theorem normCharsF_append : ∀ preL : List Char, ∀ fuel nameL restL,
    '{' ∉ preL → phValidName nameL →
    (preL ++ '{' :: (nameL ++ '}' :: restL)).length ≤ fuel →
    normCharsF fuel (preL ++ '{' :: (nameL ++ '}' :: restL)) =
      preL ++ nameL ++ normCharsF restL.length restL := by
  intro preL
  induction preL with
  | nil =>
    intro fuel nameL restL _ hname hlen
    simp only [List.nil_append] at hlen ⊢
    cases fuel with
    | zero => simp at hlen
    | succ f =>
      simp only [normCharsF, beq_self_eq_true, if_true]
      rw [phMatch_exact nameL restL hname]
      dsimp only
      simp only [List.length_cons, List.length_append, List.length_cons,
        Nat.succ_le_succ_iff] at hlen
      rw [normCharsF_irrel f restL.length restL (by omega) (by omega)]
  | cons p preL ih =>
    intro fuel nameL restL hpre hname hlen
    have hp : (p == '{') = false := by
      simp only [beq_eq_false_iff_ne, ne_eq]
      intro hpp; exact hpre (by simp [hpp])
    have hpre' : '{' ∉ preL := by
      intro hm; exact hpre (by simp [hm])
    cases fuel with
    | zero => simp at hlen
    | succ f =>
      rw [List.cons_append]
      simp only [normCharsF, hp, Bool.false_eq_true, if_false]
      simp only [List.cons_append, List.length_cons, Nat.succ_le_succ_iff] at hlen
      rw [ih f nameL restL hpre' hname hlen]
      simp

theorem normalize_placeholders_spec (pre name rest : String)
    (hpre : '{' ∉ pre.data) (hname : phValidName name.data) :
    normalize_placeholders (pre ++ "\x7b" ++ name ++ "\x7d" ++ rest) =
      pre ++ name ++ normalize_placeholders rest := by
  unfold normalize_placeholders
  have hdata : (pre ++ "\x7b" ++ name ++ "\x7d" ++ rest).data =
      pre.data ++ '{' :: (name.data ++ '}' :: rest.data) := by
    simp only [String.data_append]
    simp
  rw [hdata, normCharsF_append pre.data _ name.data rest.data hpre hname (by rw [← hdata])]
  apply String.ext
  show pre.data ++ name.data ++ normCharsF rest.data.length rest.data =
    (pre ++ name ++ (normCharsF rest.data.length rest.data).asString).data
  simp only [String.data_append]
  rfl


/-!
### Document model shared by both extractors

A paragraph is its list of run texts (`paragraph.runs`); a table cell is its
list of paragraphs (`cell.paragraphs`); a table is its rows of cells
(`table.rows`, `row.cells`); the document body is its blocks in document
order (`iter_block_items`).
-/

/-- `get_paragraph_text_with_fields`: concatenate the run texts. -/
def get_paragraph_text_with_fields (runs : List String) : String := concatStrs runs

/-- Accumulated cell text: `for paragraph in cell.paragraphs: cell_text += ...`. -/
def cell_text (cell : List (List String)) : String :=
  concatStrs (cell.map get_paragraph_text_with_fields)

/-- A block yielded by `iter_block_items`: paragraph (runs) or table
(rows of cells of paragraphs of runs). -/
inductive BodyBlock where
  | par (runs : List String)
  | table (rows : List (List (List (List String))))
deriving DecidableEq

/-!
### `extract_content_with_python_docx` (`ExtractText.py`)

Walks body blocks; paragraphs are stripped then placeholder-normalized;
table cells are concatenated, placeholder-normalized, then stripped; a row
joins its cells with a tab and is kept when its stripped join is nonempty.
-/

/-- `extract_content_with_python_docx` from `ExtractText.py`. -/
def extract_content_with_python_docx (blocks : List BodyBlock) : String :=
  String.intercalate "\n" (listFlat blocks fun b =>
    match b with
    | .par runs =>
      let t := pyStrip (get_paragraph_text_with_fields runs)
      if t = "" then [] else [normalize_placeholders t]
    | .table rows =>
      rows.filterMap fun row =>
        let cells := row.map fun cell => pyStrip (normalize_placeholders (cell_text cell))
        let line := pyStrip (String.intercalate "\t" cells)
        if line = "" then none else some line)

/-!
### `extract_content` (`DOCXToText/Extractors/DOCXExtractor.py`)

The primary extractor walks headers, body blocks and footers of the parsed
document.  The placeholder substitution present in `ExtractText.py` is
commented out in this file, so no normalization is applied here.
-/

/-- A header or footer: its paragraphs and its tables, iterated separately
(`section.header.paragraphs` then `section.header.tables`). -/
structure HeaderFooterM where
  pars : List (List String)
  tables : List (List (List (List (List String))))
deriving DecidableEq

/-- A document section; `none` models `is_linked_to_previous = True`
(the header/footer is skipped). -/
structure SectionM where
  header : Option HeaderFooterM
  footer : Option HeaderFooterM

/-- The parsed document seen by `extract_content`: its sections and its
body blocks in document order. -/
structure DocModel where
  sections : List SectionM
  body : List BodyBlock

/-- Header/footer table row: cells are stripped individually, joined by a
tab, and the joined row is stripped and kept when nonempty. -/
def hf_table_row_line (row : List (List (List String))) : String :=
  pyStrip (String.intercalate "\t" (row.map fun c => pyStrip (cell_text c)))

/-- Body table row: cells are joined by a tab unstripped; only the joined
row is stripped. -/
def body_table_row_line (row : List (List (List String))) : String :=
  pyStrip (String.intercalate "\t" (row.map cell_text))

/-- Lines contributed by one header or footer part. -/
def hf_lines (hf : HeaderFooterM) : List String :=
  (hf.pars.filterMap fun p =>
    let t := pyStrip (get_paragraph_text_with_fields p)
    if t = "" then none else some t)
  ++ (listFlat hf.tables fun tbl =>
    tbl.filterMap fun row =>
      let t := hf_table_row_line row
      if t = "" then none else some t)

/-- Header lines over all sections, skipping linked-to-previous headers. -/
def header_lines (secs : List SectionM) : List String :=
  listFlat secs fun s =>
    match s.header with
    | none => []
    | some hf => hf_lines hf

/-- Footer lines over all sections with the one-off separator inserted
before the first non-linked footer (`footer_added` flag). -/
def footer_lines : List SectionM → Bool → List String
  | [], _ => []
  | s :: ss, added =>
    match s.footer with
    | none => footer_lines ss added
    | some hf => (if added then [] else [""]) ++ hf_lines hf ++ footer_lines ss true

/-- Lines contributed by the body blocks. -/
def body_lines (blocks : List BodyBlock) : List String :=
  listFlat blocks fun b =>
    match b with
    | .par runs =>
      let t := pyStrip (get_paragraph_text_with_fields runs)
      if t = "" then [] else [t]
    | .table rows =>
      rows.filterMap fun row =>
        let t := body_table_row_line row
        if t = "" then none else some t

/-- The happy path of `extract_content`: headers, separator when any header
line was produced, body, footers; joined by newlines (no final strip). -/
def extract_document_text (doc : DocModel) : String :=
  let hdr := header_lines doc.sections
  let withSep := if hdr.any (fun t => !(t == "")) then hdr ++ [""] else hdr
  String.intercalate "\n" (withSep ++ body_lines doc.body ++ footer_lines doc.sections false)

/-!
### `_extract_with_zipfile_fallback` (`DOCXToText/Extractors/DOCXExtractor.py`)

Direct traversal of the `w:t` text nodes of `word/document.xml`,
`word/header*.xml` and `word/footer*.xml` via `zipfile` + ElementTree.
-/

/-- One XML part as seen by `extract_text_from_xml`: the `w:t` texts of each
paragraph, and for each table the `w:t` texts of each cell of each row. -/
structure XmlPartM where
  pars : List (List String)
  tables : List (List (List (List String)))
deriving DecidableEq

/-- `extract_text_from_xml`: paragraph lines then table lines. -/
def extract_text_from_xml (x : XmlPartM) : List String :=
  (x.pars.filterMap fun texts =>
    if texts.isEmpty then none
    else
      let t := pyStrip (concatStrs texts)
      if t = "" then none else some t)
  ++ (listFlat x.tables fun tbl =>
    tbl.filterMap fun row =>
      let cells := row.filterMap fun texts =>
        if texts.isEmpty then none else some (pyStrip (concatStrs texts))
      if cells.isEmpty then none
      else
        let rowText := String.intercalate "\t" cells
        if pyStrip rowText = "" then none else some rowText)

/-- The zip-level view of the package used by the fallback extractor.
`valid = false` models a `zipfile.ZipFile` open failure; `document = none`
models a missing `word/document.xml` (the `KeyError` branch). -/
structure ZipModel where
  valid : Bool
  headers : List XmlPartM
  document : Option XmlPartM
  footers : List XmlPartM
deriving DecidableEq

/-- `_extract_with_zipfile_fallback`: returns a plain string and never
raises; both failure branches return the empty string. -/
def extract_with_zipfile_fallback (z : ZipModel) : String :=
  if z.valid = false then ""
  else
    let hdrContent := listFlat z.headers fun h =>
      let c := extract_text_from_xml h
      if c.isEmpty then [] else c ++ [""]
    match z.document with
    | none => ""
    | some d =>
      let docContent := extract_text_from_xml d
      let footSep : List String := if z.footers.isEmpty then [] else [""]
      let footContent := listFlat z.footers fun f => extract_text_from_xml f
      pyStrip (String.intercalate "\n" (hdrContent ++ docContent ++ footSep ++ footContent))

/-!
### `extract_content` dispatch

`Document(docx_path)` either yields the parsed document or raises; when the
message mentions both `customXML` and `archive` the zipfile fallback is used,
otherwise the exception is re-raised.
-/

/-- A DOCX input file as seen by `extract_content`: the outcome of
`Document(docx_path)` and the raw zip view used by the fallback. -/
structure DocxInput where
  primary : Except String DocModel
  zip : ZipModel

/-- The error test `"customXML" in error_msg and "archive" in error_msg`. -/
def is_dangling_ref_msg (msg : String) : Bool :=
  strContains msg "customXML" && strContains msg "archive"

/-- `extract_content` from `DOCXExtractor.py`: success with text, fallback
on a dangling-customXML open error, or re-raised failure. -/
def extract_content (f : DocxInput) : Except String String :=
  match f.primary with
  | .ok doc => .ok (extract_document_text doc)
  | .error msg =>
    if is_dangling_ref_msg msg then .ok (extract_with_zipfile_fallback f.zip)
    else .error msg

/-- Operations performed by `extract_content`, for stating which recovery
strategies the extractor invokes. -/
inductive EngineAction where
  | tryPrimary
  | archiveRepair
  | zipFallback
deriving DecidableEq

/-- The recovery trace of `extract_content`: the primary parse is attempted
once; on a dangling-customXML failure the zipfile fallback runs.  No call to
`repair_docx_strip_customxml` occurs anywhere in `extract_content`. -/
def extract_content_actions (f : DocxInput) : List EngineAction :=
  match f.primary with
  | .ok _ => [.tryPrimary]
  | .error msg =>
    if is_dangling_ref_msg msg then [.tryPrimary, .zipFallback]
    else [.tryPrimary]

/-!
### `repair_docx_strip_customxml` (`DOCXToText/Converters/Repair.py`)

The package is its zip members in order.  A member's content is modelled as
a list of XML elements: self-closing `<Relationship ... Target="..."/>`
elements, self-closing `<Override PartName="..."/>` elements, and opaque
text chunks (assumed valid UTF-8, so the decode/encode round trip in
`_filter_relationships` is the identity on them).
-/

/-- One XML element of a zip member, as inspected by the repair regexes. -/
inductive XElem where
  | rel (target : String)
  | override (partName : String)
  | chunk (text : String)
deriving DecidableEq

/-- One zip member: its name and its content elements. -/
structure ZPart where
  name : String
  content : List XElem
deriving DecidableEq

/-- `_should_skip_member`: `name.lower().startswith("customxml/")`. -/
def should_skip_member (name : String) : Bool :=
  "customxml/".data.isPrefixOf (name.data.map lowerChar)

/-- The relationship regex `Target="(?:\.\./)?customXml/..."` (either quote
style, IGNORECASE): an optional literal `../` then a case-insensitive
`customxml/` prefix of the target. -/
def rel_target_matches (t : String) : Bool :=
  let t' := if "../".data.isPrefixOf t.data then t.data.drop 3 else t.data
  "customxml/".data.isPrefixOf (t'.map lowerChar)

/-- `_filter_relationships`: delete every self-closing Relationship element
whose target matches the regex; all other content is unchanged. -/
def filter_relationships (content : List XElem) : List XElem :=
  content.filter fun e =>
    match e with
    | .rel t => !(rel_target_matches t)
    | _ => true

/-- The content-types regex `PartName="/customXml/..."` (IGNORECASE). -/
def ct_override_matches (pn : String) : Bool :=
  "/customxml/".data.isPrefixOf (pn.data.map lowerChar)

/-- `_filter_content_types`: delete every matching Override element. -/
def filter_content_types (content : List XElem) : List XElem :=
  content.filter fun e =>
    match e with
    | .override pn => !(ct_override_matches pn)
    | _ => true

/-- Relationship-manifest name test from the repair loop:
`name.endswith(".rels") and ("/_rels/" in name or name.endswith("_rels/.rels") or name == "_rels/.rels")`. -/
def is_rels_name (name : String) : Bool :=
  strEndsWith name ".rels" &&
    (strContains name "/_rels/" || strEndsWith name "_rels/.rels" || name == "_rels/.rels")

/-- The pure member-rewriting loop of `repair_docx_strip_customxml`:
skip customXml members, filter relationship manifests and the content-type
manifest, copy everything else unchanged. -/
def repair_docx_members (pkg : List ZPart) : List ZPart :=
  pkg.filterMap fun p =>
    if should_skip_member p.name then none
    else
      let d1 := if is_rels_name p.name then filter_relationships p.content else p.content
      let d2 := if p.name == "[Content_Types].xml" then filter_content_types d1 else d1
      some ⟨p.name, d2⟩

/-- Modelled from the spec's wording for ArchiveRepair ("entries whose
target references an omitted part"): resolve the target by stripping any
leading `/` and `../` steps, then test for the auxiliary-data
(`customXml/`) prefix case-insensitively.  This is the spec-side predicate
of the refinement comparison with `rel_target_matches`. -/
def stripRelSteps : Nat → List Char → List Char
  | 0, cs => cs
  | f + 1, cs =>
    if "/".data.isPrefixOf cs then stripRelSteps f (cs.drop 1)
    else if "../".data.isPrefixOf cs then stripRelSteps f (cs.drop 3)
    else cs

/-- Modelled from the spec: a relationship target references an omitted
(auxiliary-data) part when its resolved part name falls under the
`customXml/` prefix. -/
def spec_references_omitted (t : String) : Bool :=
  "customxml/".data.isPrefixOf ((stripRelSteps t.data.length t.data).map lowerChar)

/-!
### Effectful shell of `repair_docx_strip_customxml`

`os.path.isfile` check, `zipfile.ZipFile(input)` open, member writes into a
`NamedTemporaryFile`, then `os.replace` onto the destination.  Every failure
is caught and reported as `False`; the destination is only written by the
final atomic `os.replace`.
-/

/-- Failure-relevant facts about one invocation of the repair routine. -/
structure RepairEnv where
  input_is_file : Bool
  input_zip : Option (List ZPart)
  write_ok : Bool
  replace_ok : Bool

/-- The filesystem state the routine can affect. -/
structure RepairFS where
  dest : Option (List ZPart)
  temp : Option (List ZPart)

/-- `repair_docx_strip_customxml`: returns success flag and the resulting
filesystem state.  All exceptions are caught (`except Exception`), the temp
file is removed best-effort on failure, and `os.replace` moves the fully
written temp zip onto the destination only after the member loop finished. -/
def repair_docx_strip_customxml (env : RepairEnv) (fs : RepairFS) : Bool × RepairFS :=
  if env.input_is_file = false then (false, fs)
  else
    match env.input_zip with
    | none => (false, fs)
    | some parts =>
      if env.write_ok = false then (false, { fs with temp := none })
      else if env.replace_ok = false then (false, { fs with temp := none })
      else (true, { dest := some (repair_docx_members parts), temp := none })

/-!
### `ConversionConfig` (`DOCXToText/config.py`) and `process_file`
(`DOCXToText/Pipeline/Batch.py`)

`ConversionConfig` is a plain dataclass declaring exactly five fields;
neither the class, `from_env`, nor any caller in the repository
(`CLI.py` constructs it with keyword subsets of these fields, and nothing
anywhere assigns further attributes) ever defines `enable_libreoffice`.
`process_file` nevertheless reads `config.enable_libreoffice`
(`Batch.py` line 62) inside its `try`, before any conversion or
extraction, so that read raises `AttributeError` on every invocation and
propagates out of `process_file`.  Were the attribute present and truthy,
line 64 would next call `convert_docx_via_libreoffice(input_path=...,
output_path=..., config=...)` whose parameters are
`(input_docx_path, output_docx_path, cfg)` — a `TypeError` raised at call
time, again before any subprocess is spawned — and `await` its plain
`bool` result.  Exceptions are modelled by `Except.error`.
-/

/-- The `ConversionConfig` dataclass, with exactly the fields `config.py`
declares. -/
structure ConversionConfig where
  concurrency_limit : Nat
  temp_dir_name : String
  output_extension : String
  overwrite_existing : Bool
  log_level : String

/-- The Python message of the attribute error raised at `Batch.py` line 62
(quotes around the names omitted). -/
def attribute_error_msg : String :=
  "AttributeError: ConversionConfig object has no attribute enable_libreoffice"

/-- The Python message of the type error that `Batch.py` line 64 would
raise if line 62 ever got past the missing attribute (quotes omitted). -/
def libreoffice_kwargs_type_error : String :=
  "TypeError: convert_docx_via_libreoffice got an unexpected keyword argument input_path"

/-- The attribute read `config.enable_libreoffice` on a `ConversionConfig`:
the dataclass declares no such field and no code in the repository assigns
one, so the read raises `AttributeError` for every configuration the
program can construct. -/
def read_enable_libreoffice (_cfg : ConversionConfig) : Except String Bool :=
  .error attribute_error_msg

/-- One input file as validated by `process_file`. -/
structure FileInput where
  exists_on_disk : Bool
  has_docx_ext : Bool
  content : DocxInput

/-- `process_file` without the output-writing step: input validation, then
the `config.enable_libreoffice` read of `Batch.py` line 62.  The read
raises, so the error propagates before any conversion or extraction; the
two dead branches record what lines 64 and 78-83 would do (the enabled
branch dies again on line 64's keyword mismatch; the disabled branch
would extract the original file). -/
def process_file (cfg : ConversionConfig) (f : FileInput) :
    Except String String :=
  if f.exists_on_disk = false then .error "Input file not found"
  else if f.has_docx_ext = false then .error "File must be a .docx file"
  else
    match read_enable_libreoffice cfg with
    | .error e => .error e
    | .ok enabled =>
      if enabled then .error libreoffice_kwargs_type_error
      else extract_content f.content

/-!
### Output-name collision handling (`process_file`, `Batch.py` lines 89-106)

`f"{base_name}_{counter}{ext}"` uses Python decimal formatting of the
counter; modelled by `decimalRepr` below.
-/

/-- Little-endian decimal digits with structural fuel (`fuel ≥ n` suffices). -/
def decDigitsFuel : Nat → Nat → List Char
  | 0, _ => []
  | fuel + 1, n =>
    if n = 0 then [] else Nat.digitChar (n % 10) :: decDigitsFuel fuel (n / 10)

/-- Python decimal formatting of a natural number. -/
def decimalRepr (n : Nat) : String :=
  if n = 0 then "0" else ((decDigitsFuel n n).reverse).asString

/-- The candidate `f"{base_name}_{counter}{ext}"`. -/
def suffixed_name (base ext : String) (k : Nat) : String :=
  base ++ "_" ++ decimalRepr k ++ ext

/-- The collision `while` loop: try `base_k`, `base_(k+1)`, ... until one is
unused.  The fuel is set by the caller to one more than the number of
existing files, which always suffices. -/
def find_free_name (existing : List String) (base ext : String) : Nat → Nat → String
  | 0, k => suffixed_name base ext k
  | fuel + 1, k =>
    let cand := suffixed_name base ext k
    if existing.contains cand then find_free_name existing base ext fuel (k + 1)
    else cand

/-- Output-path choice of `process_file`: `base ++ ext`, except that when
the file exists and overwrite is disabled the incrementing-suffix loop runs
(starting at counter 1). -/
def resolve_output_name (existing : List String) (overwrite : Bool) (base ext : String) :
    String :=
  let f0 := base ++ ext
  if existing.contains f0 && !overwrite then
    find_free_name existing base ext (existing.length + 1) 1
  else f0

/-!
### `process_files_in_parallel` result aggregation (`Batch.py`)

Each file's `process_with_semaphore` records the file's outcome in the
`results` dict (success) or the `errors` dict (exception caught); the
batch returns `results` only, raising when it is empty and the input list
was not.
-/

/-- Split per-file outcomes into the `results` and `errors` dicts. -/
def batch_partition : List (String × Except String String) →
    List (String × String) × List (String × String)
  | [] => ([], [])
  | (p, .ok t) :: rest =>
    let r := batch_partition rest
    ((p, t) :: r.1, r.2)
  | (p, .error m) :: rest =>
    let r := batch_partition rest
    (r.1, (p, m) :: r.2)

/-- `process_files_in_parallel`: empty input returns `{}`; otherwise the
successes dict is returned, and `Exception("All files failed to process")`
is raised when it is empty. -/
def process_files_in_parallel (outcomes : List (String × Except String String)) :
    Except String (List (String × String)) :=
  if outcomes.isEmpty then .ok []
  else
    let r := batch_partition outcomes
    if r.1.isEmpty then .error "All files failed to process"
    else .ok r.1

/-!
### Concurrency model of the batch (`Batch.py`)

`asyncio.Semaphore(config.concurrency_limit)` bounds how many
`process_with_semaphore` tasks are between acquire and release; it is the
only synchronisation in the repository.  A task in its slot runs
`process_file`, and may only enter the conversion stage (awaiting a
conversion subprocess) if the `config.enable_libreoffice` read of
`Batch.py` line 62 returns a truthy value without raising — which
`read_enable_libreoffice` shows it never does, the `AttributeError`
instead ending the task's `process_file` call.
-/

/-- Lifecycle phase of one file's task: waiting for a slot; running
`process_file` inside its slot; awaiting a conversion subprocess; finished
(result or captured exception recorded). -/
inductive TaskPhase where
  | waiting
  | running
  | converting
  | done
deriving DecidableEq

/-- Number of tasks currently holding a semaphore slot. -/
def tasksInSlot (s : List TaskPhase) : Nat :=
  s.countP fun p => p == TaskPhase.running || p == TaskPhase.converting

/-- Number of conversion-stage subprocess runs active at this instant. -/
def activeConversions (s : List TaskPhase) : Nat :=
  s.countP fun p => p == TaskPhase.converting

/-- Interleaving semantics of the batch under configuration `cfg`: a
waiting task may enter its slot when fewer than `limit` tasks hold one
(semaphore acquire); a running task enters the conversion stage only when
the line-62 attribute read yields `true` without raising; a conversion
completes back into the running task; a running task may finish (for the
repository's configurations: with the line-62 `AttributeError` captured by
`process_with_semaphore`). -/
inductive BatchStep (cfg : ConversionConfig) (limit : Nat) :
    List TaskPhase → List TaskPhase → Prop
  | start (a b : List TaskPhase) :
      tasksInSlot (a ++ TaskPhase.waiting :: b) < limit →
      BatchStep cfg limit (a ++ TaskPhase.waiting :: b) (a ++ TaskPhase.running :: b)
  | enterConversion (a b : List TaskPhase) :
      read_enable_libreoffice cfg = .ok true →
      BatchStep cfg limit (a ++ TaskPhase.running :: b) (a ++ TaskPhase.converting :: b)
  | convDone (a b : List TaskPhase) :
      BatchStep cfg limit (a ++ TaskPhase.converting :: b) (a ++ TaskPhase.running :: b)
  | finish (a b : List TaskPhase) :
      BatchStep cfg limit (a ++ TaskPhase.running :: b) (a ++ TaskPhase.done :: b)

/-- States reachable by the batch from all-waiting. -/
def BatchReachable (cfg : ConversionConfig) (limit : Nat) (init s : List TaskPhase) : Prop :=
  Relation.ReflTransGen (BatchStep cfg limit) init s

/-!
### Concrete instances used in counterexamples and witnesses
-/

/-- The dangling-reference error raised by `python-docx` (quoted in the
repair module's docstring). -/
def danglingMsg : String := "There is no item named customXML/item1.xml in the archive"

/-- A package whose primary open fails on a dangling customXML reference
but whose zip still carries a readable main body. -/
def c2InputX : DocxInput :=
  ⟨.error danglingMsg, ⟨true, [], some ⟨[["body text"]], []⟩, []⟩⟩

/-- A package whose primary open fails on a dangling customXML reference
and whose zip is missing `word/document.xml` (no mandatory main body). -/
def c3InputX : DocxInput :=
  ⟨.error danglingMsg, ⟨true, [], none, []⟩⟩

/-- A package with an omitted auxiliary part that is still referenced by a
relationship entry using an absolute `/customXml/...` target. -/
def c6PkgX : List ZPart :=
  [⟨"customXml/item1.xml", [.chunk "blob"]⟩,
   ⟨"word/_rels/document.xml.rels", [.rel "/customXml/item1.xml"]⟩,
   ⟨"word/document.xml", [.chunk "body"]⟩]

/-!
### Claim C2
-/

/-- C2 counterexample: on a primary failure attributable to a dangling
reference to a missing part, `extract_content` does not invoke
ArchiveRepair at all (and hence performs no retried primary extraction
against a repaired package): its recovery trace is primary-then-zipfile
fallback. -/
theorem c2_counterexample :
    is_dangling_ref_msg danglingMsg = true ∧
    extract_content_actions c2InputX = [.tryPrimary, .zipFallback] ∧
    EngineAction.archiveRepair ∉ extract_content_actions c2InputX := by
  refine ⟨by decide, ?_, ?_⟩
  · rfl
  · decide

/-- C2 (amended): for every package whose primary extraction fails
specifically because of a dangling reference to a missing customXML part,
`extract_content` performs a direct zipfile fallback extraction of the
original package; `repair_docx_strip_customxml` exists in the repository
but is never invoked by the extraction path. -/
theorem c2_fallback_instead_of_repair (f : DocxInput) (msg : String)
    (hmsg : f.primary = .error msg) (hdangle : is_dangling_ref_msg msg = true) :
    extract_content f = .ok (extract_with_zipfile_fallback f.zip) ∧
    extract_content_actions f = [.tryPrimary, .zipFallback] ∧
    EngineAction.archiveRepair ∉ extract_content_actions f := by
  unfold extract_content extract_content_actions
  rw [hmsg]
  simp [hdangle]

/-- C2 witness: the amended behaviour at the concrete dangling-reference
input. -/
theorem c2_fallback_instead_of_repair_witness :
    extract_content c2InputX = .ok (extract_with_zipfile_fallback c2InputX.zip) ∧
    extract_content_actions c2InputX = [.tryPrimary, .zipFallback] ∧
    EngineAction.archiveRepair ∉ extract_content_actions c2InputX :=
  c2_fallback_instead_of_repair c2InputX danglingMsg rfl (by decide)

/-!
### Claim C3
-/

/-- C3 counterexample: a package missing its mandatory main-body part,
reached through the customXML fallback path, yields `ok ""` — a silently
empty success — instead of a failure carrying a cause. -/
theorem c3_counterexample :
    c3InputX.zip.document = none ∧ extract_content c3InputX = .ok "" := by
  exact ⟨rfl, rfl⟩

/-- C3 (amended): extraction always reaches a definite outcome, and a
primary open failure not attributable to a dangling customXML reference
(e.g. the input is not a valid package) is a failure carrying that cause;
but on the customXML fallback path a package missing its mandatory
main-body part yields success with the empty string, not a failure. -/
theorem c3_definite_outcome :
    (∀ f : DocxInput, (∃ t, extract_content f = .ok t) ∨
      (∃ m, extract_content f = .error m)) ∧
    (∀ (f : DocxInput) (msg : String), f.primary = .error msg →
      is_dangling_ref_msg msg = false → extract_content f = .error msg) ∧
    (∀ (f : DocxInput) (msg : String), f.primary = .error msg →
      is_dangling_ref_msg msg = true → f.zip.document = none →
      extract_content f = .ok "") := by
  refine ⟨?_, ?_, ?_⟩
  · intro f
    unfold extract_content
    cases hp : f.primary with
    | ok doc => exact .inl ⟨_, rfl⟩
    | error msg =>
      by_cases hd : is_dangling_ref_msg msg = true
      · exact .inl ⟨_, by dsimp only; rw [hd]; rfl⟩
      · refine .inr ⟨msg, ?_⟩
        rw [Bool.not_eq_true] at hd
        dsimp only
        rw [hd]
        rfl
  · intro f msg hmsg hd
    unfold extract_content
    rw [hmsg]
    dsimp only
    rw [hd]
    rfl
  · intro f msg hmsg hd hdoc
    unfold extract_content
    rw [hmsg]
    dsimp only
    rw [hd]
    unfold extract_with_zipfile_fallback
    rw [hdoc]
    cases hv : f.zip.valid <;> rfl

/-- C3 witness: the amended behaviour at concrete inputs — a non-dangling
open failure stays a failure with its cause, and the fallback on a
missing main body returns the empty success. -/
theorem c3_definite_outcome_witness :
    extract_content ⟨.error "File is not a zip file", ⟨false, [], none, []⟩⟩ =
      .error "File is not a zip file" ∧
    extract_content c3InputX = .ok "" :=
  ⟨c3_definite_outcome.2.1 ⟨.error "File is not a zip file", ⟨false, [], none, []⟩⟩
      "File is not a zip file" rfl (by decide),
   c3_definite_outcome.2.2 c3InputX danglingMsg rfl (by decide) rfl⟩

/-!
### Claim C4
-/

theorem batch_partition_lengths (outcomes : List (String × Except String String)) :
    (batch_partition outcomes).1.length + (batch_partition outcomes).2.length =
      outcomes.length := by
  induction outcomes with
  | nil => rfl
  | cons o rest ih =>
    obtain ⟨p, r⟩ := o
    cases r with
    | ok t => simp only [batch_partition, List.length_cons]; omega
    | error m => simp only [batch_partition, List.length_cons]; omega

theorem batch_partition_ok_length (outcomes : List (String × Except String String)) :
    (batch_partition outcomes).1.length = outcomes.countP (fun o => o.2.isOk) := by
  induction outcomes with
  | nil => rfl
  | cons o rest ih =>
    obtain ⟨p, r⟩ := o
    cases r with
    | ok t =>
      simp only [batch_partition, List.length_cons, List.countP_cons, ih, Except.isOk]
      rfl
    | error m =>
      simp only [batch_partition, List.countP_cons, ih, Except.isOk]
      rfl

theorem batch_partition_mem_err (outcomes : List (String × Except String String))
    (p m : String) :
    (p, m) ∈ (batch_partition outcomes).2 ↔ (p, Except.error m) ∈ outcomes := by
  induction outcomes with
  | nil => simp [batch_partition]
  | cons o rest ih =>
    obtain ⟨q, r⟩ := o
    cases r with
    | ok t =>
      simp only [batch_partition, List.mem_cons, ih]
      constructor
      · intro h; exact .inr h
      · rintro (h | h)
        · exact absurd h (by simp)
        · exact h
    | error m' =>
      simp only [batch_partition, List.mem_cons, ih, Prod.mk.injEq, Except.error.injEq]

theorem batch_partition_mem_ok (outcomes : List (String × Except String String))
    (p t : String) :
    (p, t) ∈ (batch_partition outcomes).1 ↔ (p, Except.ok t) ∈ outcomes := by
  induction outcomes with
  | nil => simp [batch_partition]
  | cons o rest ih =>
    obtain ⟨q, r⟩ := o
    cases r with
    | error m =>
      simp only [batch_partition, List.mem_cons, ih]
      constructor
      · intro h; exact .inr h
      · rintro (h | h)
        · exact absurd h (by simp)
        · exact h
    | ok t' =>
      simp only [batch_partition, List.mem_cons, ih, Prod.mk.injEq, Except.ok.injEq]

/-- C4 counterexample: a batch of K = 1 file of which M = 1 fails beyond
recovery does not return 0 successes and 1 failure — it raises
`Exception("All files failed to process")`. -/
theorem c4_counterexample :
    process_files_in_parallel [("a.docx", .error "boom")] =
      .error "All files failed to process" := by
  rfl

/-- C4 (amended): provided at least one of the K files succeeds, the batch
returns (without raising) the map of exactly the K−M successes, while the M
failures are each captured and recorded against their file's entry in the
internal errors map (they are logged, not returned); when K ≥ 1 and all K
files fail, the batch raises.  A single file's failure never removes or
corrupts another file's entry. -/
theorem c4_partial_failure (outcomes : List (String × Except String String))
    (h : ∃ o ∈ outcomes, o.2.isOk = true) :
    process_files_in_parallel outcomes = .ok (batch_partition outcomes).1 ∧
    (batch_partition outcomes).1.length = outcomes.countP (fun o => o.2.isOk) ∧
    (batch_partition outcomes).1.length + (batch_partition outcomes).2.length =
      outcomes.length ∧
    (∀ p t, (p, t) ∈ (batch_partition outcomes).1 ↔ (p, Except.ok t) ∈ outcomes) ∧
    (∀ p m, (p, m) ∈ (batch_partition outcomes).2 ↔ (p, Except.error m) ∈ outcomes) := by
  obtain ⟨⟨p, r⟩, hmem, hok⟩ := h
  cases r with
  | error m => simp [Except.isOk, Except.toBool] at hok
  | ok t =>
    have hne : ¬outcomes.isEmpty = true := by
      cases outcomes with
      | nil => simp at hmem
      | cons o rest => simp [List.isEmpty]
    have hres : (p, t) ∈ (batch_partition outcomes).1 :=
      (batch_partition_mem_ok outcomes p t).mpr hmem
    have hres_ne : ¬(batch_partition outcomes).1.isEmpty = true := by
      cases hpart : (batch_partition outcomes).1 with
      | nil => rw [hpart] at hres; simp at hres
      | cons x xs => simp [List.isEmpty]
    refine ⟨?_, batch_partition_ok_length outcomes, batch_partition_lengths outcomes,
      fun p' t' => batch_partition_mem_ok outcomes p' t',
      fun p' m' => batch_partition_mem_err outcomes p' m'⟩
    unfold process_files_in_parallel
    rw [Bool.not_eq_true] at hne hres_ne
    rw [hne]
    dsimp only
    rw [hres_ne]
    rfl

/-- C4 witness: the amended behaviour at a concrete two-file batch with one
success and one unrecoverable failure. -/
theorem c4_partial_failure_witness :
    process_files_in_parallel [("a.docx", .ok "text"), ("b.docx", .error "boom")] =
      .ok [("a.docx", "text")] ∧
    ("b.docx", "boom") ∈
      (batch_partition [("a.docx", .ok "text"), ("b.docx", .error "boom")]).2 := by
  have h := c4_partial_failure [("a.docx", .ok "text"), ("b.docx", .error "boom")]
    ⟨("a.docx", .ok "text"), by simp, by decide⟩
  refine ⟨h.1, ?_⟩
  exact (h.2.2.2.2 "b.docx" "boom").mpr (by simp)

/-!
### Claim C5
-/

/-- C5: with placeholder normalization enabled
(`extract_content_with_python_docx`), every brace-delimited placeholder
token is replaced by just its inner name: normalization rewrites each
occurrence of `{name}` (well-formed inner name, no further `{` before it)
to `name`; in particular a paragraph `Hello {Name}` extracts as
`Hello Name`. -/
theorem c5_placeholder_normalization :
    (∀ pre name rest : String, '{' ∉ pre.data → phValidName name.data →
      normalize_placeholders (pre ++ "\x7b" ++ name ++ "\x7d" ++ rest) =
        pre ++ name ++ normalize_placeholders rest) ∧
    extract_content_with_python_docx [.par ["Hello ", "{Name}"]] = "Hello Name" := by
  refine ⟨normalize_placeholders_spec, ?_⟩
  rfl

/-- C5 witness: the normalization equation instantiated at the scenario
paragraph `Hello {Name}`. -/
theorem c5_placeholder_normalization_witness :
    normalize_placeholders ("Hello " ++ "\x7b" ++ "Name" ++ "\x7d" ++ "") =
      "Hello " ++ "Name" ++ normalize_placeholders "" ∧
    extract_content_with_python_docx [.par ["Hello ", "{Name}"]] = "Hello Name" :=
  ⟨c5_placeholder_normalization.1 "Hello " "Name" "" (by decide)
    ⟨by decide, by decide⟩,
   c5_placeholder_normalization.2⟩

/-!
### Claim C7
-/

/-- C7 (code bug): the claim states the intended behaviour — the code
itself encodes it in `LibreOffice.py`'s not-found warning and
`process_file`'s fall-back to the original file — but the wiring is
broken: on every host, tool present or not, `process_file` raises
`AttributeError` reading the nonexistent `config.enable_libreoffice`
before tool discovery, conversion or extraction can run, so a well-formed
input fails instead of succeeding. -/
theorem c7_pipeline_crash (cfg : ConversionConfig) (f : FileInput)
    (hex : f.exists_on_disk = true) (hdocx : f.has_docx_ext = true) :
    process_file cfg f = .error attribute_error_msg := by
  unfold process_file
  rw [hex, hdocx]
  rfl

/-- The CLI's default configuration
(`ConversionConfig(concurrency_limit=4, temp_dir_name="texttopo_temp",
overwrite_existing=False, log_level="INFO")` with the default output
extension). -/
def c7Cfg : ConversionConfig := ⟨4, "texttopo_temp", ".txt", false, "INFO"⟩

/-- A well-formed single-paragraph document. -/
def c7Doc : DocModel := ⟨[⟨none, none⟩], [.par ["hello world"]]⟩

/-- An existing, well-formed `.docx` input file. -/
def c7File : FileInput := ⟨true, true, ⟨.ok c7Doc, ⟨true, [], none, []⟩⟩⟩

/-- C7 witness: the concrete well-formed input under the CLI's default
configuration fails with the attribute error instead of extracting. -/
theorem c7_pipeline_crash_witness :
    process_file c7Cfg c7File = .error attribute_error_msg :=
  c7_pipeline_crash c7Cfg c7File rfl rfl

/-!
### Claim C8
-/

theorem body_lines_table_of_clean (t : List (List (List (List String))))
    (h : ∀ row ∈ t,
      pyStrip (String.intercalate "\t" (row.map cell_text)) =
        String.intercalate "\t" (row.map cell_text) ∧
      String.intercalate "\t" (row.map cell_text) ≠ "") :
    (t.filterMap fun row =>
      let s := body_table_row_line row
      if s = "" then none else some s) =
      t.map fun row => String.intercalate "\t" (row.map cell_text) := by
  induction t with
  | nil => rfl
  | cons row rest ih =>
    obtain ⟨hstrip, hne⟩ := h row (by simp)
    have hrest : ∀ r ∈ rest,
        pyStrip (String.intercalate "\t" (r.map cell_text)) =
          String.intercalate "\t" (r.map cell_text) ∧
        String.intercalate "\t" (r.map cell_text) ≠ "" := by
      intro r hr; exact h r (by simp [hr])
    rw [List.filterMap_cons]
    have hhead : (let s := body_table_row_line row; if s = "" then none else some s) =
        some (String.intercalate "\t" (row.map cell_text)) := by
      show (if body_table_row_line row = "" then none else some (body_table_row_line row)) =
        some (String.intercalate "\t" (row.map cell_text))
      unfold body_table_row_line
      rw [hstrip, if_neg hne]
    rw [hhead, ih hrest, List.map_cons]

/-- C8: a document whose body is one table (with whitespace-clean, nonempty
rows) extracts as the rows joined by newlines, the cells within each row
joined by a tab, each cell's text being the concatenation of its
paragraphs' texts; in particular the 2×2 table A,B / C,D yields the line
`A\tB` then the line `C\tD`. -/
theorem c8_table_layout (t : List (List (List (List String))))
    (h : ∀ row ∈ t,
      pyStrip (String.intercalate "\t" (row.map cell_text)) =
        String.intercalate "\t" (row.map cell_text) ∧
      String.intercalate "\t" (row.map cell_text) ≠ "") :
    extract_document_text ⟨[⟨none, none⟩], [.table t]⟩ =
      String.intercalate "\n" (t.map fun row =>
        String.intercalate "\t" (row.map cell_text)) := by
  unfold extract_document_text
  have hhdr : header_lines [⟨none, none⟩] = [] := rfl
  have hfoot : footer_lines [⟨none, none⟩] false = [] := rfl
  rw [hhdr, hfoot]
  simp only [List.any_nil, if_false, List.nil_append, List.append_nil]
  unfold body_lines listFlat
  simp only [List.map_cons, List.map_nil, List.flatten]
  rw [body_lines_table_of_clean t h]
  simp

/-- The 2×2 table of the spec scenario: cells `A`,`B` / `C`,`D`, each cell
one paragraph of one run. -/
def c8Table : List (List (List (List String))) :=
  [[[["A"]], [["B"]]], [[["C"]], [["D"]]]]

/-- C8 witness: the concrete 2×2 table extracts as `A\tB` then `C\tD`. -/
theorem c8_table_layout_witness :
    extract_document_text ⟨[⟨none, none⟩], [.table c8Table]⟩ = "A\tB\nC\tD" := by
  rw [c8_table_layout c8Table (by decide)]
  rfl

/-!
### Claim C6
-/

/-- C6 counterexample: in the repaired package produced from `c6PkgX`, the
auxiliary part `customXml/item1.xml` is omitted, yet its relationship
manifest still contains an entry whose absolute target
`/customXml/item1.xml` references the omitted part — the deletion promised
for every entry targeting an omitted part did not happen, because the
source regex only matches targets spelled `customXml/...` or
`../customXml/...`. -/
theorem c6_counterexample :
    should_skip_member "customXml/item1.xml" = true ∧
    (∀ q ∈ repair_docx_members c6PkgX, q.name ≠ "customXml/item1.xml") ∧
    (⟨"word/_rels/document.xml.rels", [.rel "/customXml/item1.xml"]⟩ : ZPart) ∈
      repair_docx_members c6PkgX ∧
    is_rels_name "word/_rels/document.xml.rels" = true ∧
    spec_references_omitted "/customXml/item1.xml" = true ∧
    rel_target_matches "/customXml/item1.xml" = false := by
  refine ⟨by decide, by decide, by decide, by decide, by decide, by decide⟩

/-- C6 (amended): ArchiveRepair produces a new package without mutating the
input such that: every part under the auxiliary-data (`customXml/`) prefix
is omitted and no other part is dropped; in every relationship manifest the
entries whose target is spelled as an optionally `../`-prefixed
case-insensitive `customXml/` path are deleted (entries referencing omitted
parts by other spellings, such as absolute `/customXml/...` targets, are
kept); matching content-type overrides (`/customXml/...` part names) are
deleted; and every part that is neither omitted, a relationship manifest,
nor the content-type manifest is copied with its content unchanged. -/
theorem c6_repair_shape (pkg : List ZPart) :
    (∀ q ∈ repair_docx_members pkg, should_skip_member q.name = false) ∧
    (∀ p ∈ pkg, should_skip_member p.name = false →
      ∃ q ∈ repair_docx_members pkg, q.name = p.name) ∧
    (∀ q ∈ repair_docx_members pkg, is_rels_name q.name = true →
      ∀ t, XElem.rel t ∈ q.content → rel_target_matches t = false) ∧
    (∀ q ∈ repair_docx_members pkg, q.name = "[Content_Types].xml" →
      ∀ pn, XElem.override pn ∈ q.content → ct_override_matches pn = false) ∧
    (∀ p ∈ pkg, should_skip_member p.name = false → is_rels_name p.name = false →
      p.name ≠ "[Content_Types].xml" → p ∈ repair_docx_members pkg) := by
  refine ⟨?_, ?_, ?_, ?_, ?_⟩
  · intro q hq
    unfold repair_docx_members at hq
    rw [List.mem_filterMap] at hq
    obtain ⟨p, _, hfp⟩ := hq
    by_cases hskip : should_skip_member p.name = true
    · rw [if_pos hskip] at hfp; exact absurd hfp (by simp)
    · rw [Bool.not_eq_true] at hskip
      rw [if_neg (by rw [hskip]; exact Bool.false_ne_true)] at hfp
      injection hfp with hfp
      rw [← hfp]
      exact hskip
  · intro p hp hskip
    refine ⟨⟨p.name,
      if (p.name == "[Content_Types].xml") = true then
        filter_content_types (if is_rels_name p.name = true then
          filter_relationships p.content else p.content)
      else (if is_rels_name p.name = true then
          filter_relationships p.content else p.content)⟩, ?_, rfl⟩
    unfold repair_docx_members
    rw [List.mem_filterMap]
    refine ⟨p, hp, ?_⟩
    rw [if_neg (by rw [hskip]; exact Bool.false_ne_true)]
  · intro q hq hrels t hmem
    unfold repair_docx_members at hq
    rw [List.mem_filterMap] at hq
    obtain ⟨p, _, hfp⟩ := hq
    by_cases hskip : should_skip_member p.name = true
    · rw [if_pos hskip] at hfp; exact absurd hfp (by simp)
    · rw [Bool.not_eq_true] at hskip
      rw [if_neg (by rw [hskip]; exact Bool.false_ne_true)] at hfp
      injection hfp with hfp
      obtain ⟨hname, hcontent⟩ : q.name = p.name ∧
          q.content = (if p.name == "[Content_Types].xml" then
            filter_content_types (if is_rels_name p.name then
              filter_relationships p.content else p.content)
          else (if is_rels_name p.name then
              filter_relationships p.content else p.content)) := by
        rw [← hfp]
        exact ⟨rfl, rfl⟩
      rw [hname] at hrels
      have hct : (p.name == "[Content_Types].xml") = false := by
        rw [beq_eq_false_iff_ne]
        intro hcteq
        rw [hcteq] at hrels
        exact absurd hrels (by decide)
      rw [hct] at hcontent
      simp only [Bool.false_eq_true, if_false, hrels, if_true] at hcontent
      rw [hcontent] at hmem
      unfold filter_relationships at hmem
      rw [List.mem_filter] at hmem
      have := hmem.2
      simp only [Bool.not_eq_true'] at this
      exact this
  · intro q hq hct pn hmem
    unfold repair_docx_members at hq
    rw [List.mem_filterMap] at hq
    obtain ⟨p, _, hfp⟩ := hq
    by_cases hskip : should_skip_member p.name = true
    · rw [if_pos hskip] at hfp; exact absurd hfp (by simp)
    · rw [Bool.not_eq_true] at hskip
      rw [if_neg (by rw [hskip]; exact Bool.false_ne_true)] at hfp
      injection hfp with hfp
      obtain ⟨hname, hcontent⟩ : q.name = p.name ∧
          q.content = (if p.name == "[Content_Types].xml" then
            filter_content_types (if is_rels_name p.name then
              filter_relationships p.content else p.content)
          else (if is_rels_name p.name then
              filter_relationships p.content else p.content)) := by
        rw [← hfp]
        exact ⟨rfl, rfl⟩
      rw [hname] at hct
      have hcteq : (p.name == "[Content_Types].xml") = true := by
        rw [beq_iff_eq]; exact hct
      rw [hcteq] at hcontent
      simp only [if_true] at hcontent
      rw [hcontent] at hmem
      unfold filter_content_types at hmem
      rw [List.mem_filter] at hmem
      have := hmem.2
      simp only [Bool.not_eq_true'] at this
      exact this
  · intro p hp hskip hrels hct
    unfold repair_docx_members
    rw [List.mem_filterMap]
    refine ⟨p, hp, ?_⟩
    rw [if_neg (by rw [hskip]; exact Bool.false_ne_true)]
    rw [hrels]
    have hctb : (p.name == "[Content_Types].xml") = false := by
      rw [beq_eq_false_iff_ne]; exact hct
    rw [hctb]
    rfl

/-- C6 witness: the amended shape evaluated on the concrete package
`c6PkgX` — the auxiliary part is gone, nothing else is dropped, and the
unrelated part is copied unchanged. -/
theorem c6_repair_shape_witness :
    (∀ q ∈ repair_docx_members c6PkgX, should_skip_member q.name = false) ∧
    (⟨"word/document.xml", [.chunk "body"]⟩ : ZPart) ∈ repair_docx_members c6PkgX :=
  ⟨(c6_repair_shape c6PkgX).1,
   (c6_repair_shape c6PkgX).2.2.2.2 ⟨"word/document.xml", [.chunk "body"]⟩
     (by decide) (by decide) (by decide) (by decide)⟩

/-!
### Claim C10
-/

/-- C10: on any failure (input path not a file, input not a valid zip, a
member write error, or a failed final move) the repair routine returns
`false` without raising and leaves the destination exactly as it was; it
returns `true` only when every member was written and the fully written
temp archive was moved onto the destination, which then holds exactly the
repaired package. -/
theorem c10_repair_atomic (env : RepairEnv) (fs : RepairFS) :
    ((env.input_is_file = false ∨ env.input_zip = none ∨ env.write_ok = false ∨
        env.replace_ok = false) →
      (repair_docx_strip_customxml env fs).1 = false ∧
      (repair_docx_strip_customxml env fs).2.dest = fs.dest) ∧
    ((repair_docx_strip_customxml env fs).1 = true →
      ∃ parts, env.input_zip = some parts ∧ env.write_ok = true ∧
        env.replace_ok = true ∧
        (repair_docx_strip_customxml env fs).2.dest =
          some (repair_docx_members parts)) := by
  obtain ⟨file, zip, w, r⟩ := env
  cases file with
  | false => exact ⟨fun _ => ⟨rfl, rfl⟩, fun h => Bool.noConfusion h⟩
  | true =>
    cases zip with
    | none => exact ⟨fun _ => ⟨rfl, rfl⟩, fun h => Bool.noConfusion h⟩
    | some parts =>
      cases w with
      | false => exact ⟨fun _ => ⟨rfl, rfl⟩, fun h => Bool.noConfusion h⟩
      | true =>
        cases r with
        | false => exact ⟨fun _ => ⟨rfl, rfl⟩, fun h => Bool.noConfusion h⟩
        | true =>
          refine ⟨?_, fun _ => ⟨parts, rfl, rfl, rfl, rfl⟩⟩
          rintro (h | h | h | h) <;> simp at h

/-- C10 witness: a concrete failing run (write error) leaves the
destination untouched, and a concrete successful run installs the repaired
package. -/
theorem c10_repair_atomic_witness :
    (repair_docx_strip_customxml ⟨true, some c6PkgX, false, true⟩
      ⟨some [⟨"old", []⟩], none⟩).1 = false ∧
    (repair_docx_strip_customxml ⟨true, some c6PkgX, false, true⟩
      ⟨some [⟨"old", []⟩], none⟩).2.dest = some [⟨"old", []⟩] ∧
    (repair_docx_strip_customxml ⟨true, some c6PkgX, true, true⟩
      ⟨some [⟨"old", []⟩], none⟩).2.dest = some (repair_docx_members c6PkgX) := by
  have h1 := (c10_repair_atomic ⟨true, some c6PkgX, false, true⟩
    ⟨some [⟨"old", []⟩], none⟩).1 (by right; right; left; rfl)
  have h2 := (c10_repair_atomic ⟨true, some c6PkgX, true, true⟩
    ⟨some [⟨"old", []⟩], none⟩).2 rfl
  obtain ⟨parts, hparts, _, _, hdest⟩ := h2
  refine ⟨h1.1, h1.2, ?_⟩
  injection hparts with hparts
  rw [hdest, hparts]

/-!
### Claim C9
-/

/-- Numeric value of a decimal digit character. -/
def digitVal (c : Char) : Nat := c.toNat - 48

/-- Value of a little-endian digit list. -/
def digitsVal : List Char → Nat
  | [] => 0
  | c :: cs => digitVal c + 10 * digitsVal cs

theorem digitVal_digitChar (d : Nat) (hd : d < 10) :
    digitVal (Nat.digitChar d) = d := by
  interval_cases d <;> rfl

theorem decDigitsFuel_val : ∀ fuel n, n ≤ fuel →
    digitsVal (decDigitsFuel fuel n) = n := by
  intro fuel
  induction fuel with
  | zero =>
    intro n hn
    have : n = 0 := Nat.le_zero.mp hn
    subst this
    rfl
  | succ f ih =>
    intro n hn
    by_cases hz : n = 0
    · subst hz; rfl
    · unfold decDigitsFuel
      rw [if_neg hz]
      unfold digitsVal
      have hdiv : n / 10 ≤ f := by
        have h1 : n / 10 < n := Nat.div_lt_self (Nat.pos_of_ne_zero hz) (by omega)
        omega
      rw [ih (n / 10) hdiv, digitVal_digitChar (n % 10) (Nat.mod_lt n (by omega))]
      omega

theorem asString_injective : ∀ l₁ l₂ : List Char,
    List.asString l₁ = List.asString l₂ → l₁ = l₂ := by
  intro l₁ l₂ h
  exact congrArg String.data h

theorem decimalRepr_injective : Function.Injective decimalRepr := by
  intro m n h
  unfold decimalRepr at h
  by_cases hm : m = 0 <;> by_cases hn : n = 0
  · rw [hm, hn]
  · rw [if_pos hm, if_neg hn] at h
    have hlist : ("0" : String).data = (decDigitsFuel n n).reverse := congrArg String.data h
    have hdec : decDigitsFuel n n = ['0'] := by
      have : (decDigitsFuel n n).reverse = ['0'] := hlist.symm
      have h2 := congrArg List.reverse this
      simpa using h2
    have hval := decDigitsFuel_val n n (Nat.le_refl n)
    rw [hdec] at hval
    simp [digitsVal, digitVal] at hval
    exact absurd hval.symm hn
  · rw [if_neg hm, if_pos hn] at h
    have hlist : (decDigitsFuel m m).reverse = ("0" : String).data := congrArg String.data h
    have hdec : decDigitsFuel m m = ['0'] := by
      have h2 := congrArg List.reverse hlist
      simpa using h2
    have hval := decDigitsFuel_val m m (Nat.le_refl m)
    rw [hdec] at hval
    simp [digitsVal, digitVal] at hval
    exact absurd hval.symm hm
  · rw [if_neg hm, if_neg hn] at h
    have hlist := asString_injective _ _ h
    have hlist2 := List.reverse_injective hlist
    have hv1 := decDigitsFuel_val m m (Nat.le_refl m)
    have hv2 := decDigitsFuel_val n n (Nat.le_refl n)
    rw [hlist2] at hv1
    rw [hv2] at hv1
    exact hv1.symm

theorem suffixed_name_injective (base ext : String) :
    Function.Injective (suffixed_name base ext) := by
  intro j k h
  unfold suffixed_name at h
  have hdata := congrArg String.data h
  simp only [String.data_append] at hdata
  rw [List.append_assoc, List.append_assoc, List.append_assoc, List.append_assoc] at hdata
  have h1 := List.append_cancel_left hdata
  have h2 := List.append_cancel_left h1
  have h3 := List.append_cancel_right h2
  exact decimalRepr_injective (String.ext h3)

theorem exists_free_suffix (existing : List String) (base ext : String) :
    ∃ j, 1 ≤ j ∧ j ≤ existing.length + 1 ∧
      suffixed_name base ext j ∉ existing := by
  by_contra hcon
  push_neg at hcon
  have hsub : Finset.image (suffixed_name base ext)
      (Finset.Icc 1 (existing.length + 1)) ⊆ existing.toFinset := by
    intro x hx
    rw [Finset.mem_image] at hx
    obtain ⟨j, hj, hjx⟩ := hx
    rw [Finset.mem_Icc] at hj
    rw [List.mem_toFinset, ← hjx]
    exact hcon j hj.1 hj.2
  have hcard1 : (Finset.image (suffixed_name base ext)
      (Finset.Icc 1 (existing.length + 1))).card = existing.length + 1 := by
    rw [Finset.card_image_of_injOn
      (Function.Injective.injOn (suffixed_name_injective base ext))]
    rw [Nat.card_Icc]
    omega
  have hcard2 := Finset.card_le_card hsub
  rw [hcard1] at hcard2
  have := List.toFinset_card_le existing
  omega

theorem find_free_name_not_mem : ∀ (fuel k : Nat) (existing : List String)
    (base ext : String),
    (∃ j, k ≤ j ∧ j < k + fuel ∧ suffixed_name base ext j ∉ existing) →
    find_free_name existing base ext fuel k ∉ existing := by
  intro fuel
  induction fuel with
  | zero =>
    intro k existing base ext h
    obtain ⟨j, h1, h2, _⟩ := h
    omega
  | succ f ih =>
    intro k existing base ext h
    unfold find_free_name
    by_cases hc : existing.contains (suffixed_name base ext k) = true
    · rw [if_pos hc]
      apply ih
      obtain ⟨j, h1, h2, h3⟩ := h
      have hck : suffixed_name base ext k ∈ existing := List.elem_iff.mp hc
      have hjk : j ≠ k := by
        intro hjeq; rw [hjeq] at h3; exact h3 hck
      exact ⟨j, by omega, by omega, h3⟩
    · rw [if_neg hc]
      intro hmem
      exact hc (List.elem_iff.mpr hmem)

/-- C9: with overwrite disabled, the writer never chooses the name of an
existing file — on a collision it appends `_1`, `_2`, ... to the base name
until an unused name is found — and with only `file.txt` present it
produces `file_1.txt`. -/
theorem c9_collision_resolution :
    (∀ (existing : List String) (base ext : String),
      resolve_output_name existing false base ext ∉ existing) ∧
    resolve_output_name ["file.txt"] false "file" ".txt" = "file_1.txt" := by
  constructor
  · intro existing base ext
    unfold resolve_output_name
    dsimp only
    by_cases hc : existing.contains (base ++ ext) = true
    · rw [hc]
      simp only [Bool.not_false, Bool.and_true, if_true]
      apply find_free_name_not_mem
      obtain ⟨j, h1, h2, h3⟩ := exists_free_suffix existing base ext
      exact ⟨j, h1, by omega, h3⟩
    · rw [Bool.not_eq_true] at hc
      rw [hc]
      rw [if_neg (by simp)]
      intro hmem
      rw [← List.elem_iff] at hmem
      have hc2 : existing.contains (base ++ ext) = true := hmem
      rw [hc] at hc2
      exact Bool.noConfusion hc2
  · rfl

/-!
### Claim C1
-/

theorem activeConversions_invariant (cfg : ConversionConfig) (limit : Nat)
    (s s' : List TaskPhase) (hreach : BatchReachable cfg limit s s')
    (hinit : activeConversions s = 0) : activeConversions s' = 0 := by
  induction hreach with
  | refl => exact hinit
  | tail _ hstep ih =>
    have w0 : (if (TaskPhase.waiting == TaskPhase.converting) = true
        then 1 else 0) = 0 := rfl
    have r0 : (if (TaskPhase.running == TaskPhase.converting) = true
        then 1 else 0) = 0 := rfl
    have c1 : (if (TaskPhase.converting == TaskPhase.converting) = true
        then 1 else 0) = 1 := rfl
    have d0 : (if (TaskPhase.done == TaskPhase.converting) = true
        then 1 else 0) = 0 := rfl
    cases hstep with
    | start a b hlt =>
      unfold activeConversions at ih ⊢
      rw [List.countP_append] at ih ⊢
      simp only [List.countP_cons, w0, r0] at ih ⊢
      omega
    | enterConversion a b hguard =>
      simp [read_enable_libreoffice] at hguard
    | convDone a b =>
      unfold activeConversions at ih ⊢
      rw [List.countP_append] at ih ⊢
      simp only [List.countP_cons, c1, r0] at ih ⊢
      omega
    | finish a b =>
      unfold activeConversions at ih ⊢
      rw [List.countP_append] at ih ⊢
      simp only [List.countP_cons, r0, d0] at ih ⊢
      omega

/-- C1: in every state any batch run can reach — any number of files, any
concurrency limit, any configuration the program can construct — the
number of simultaneously active conversion-stage subprocess runs is zero,
hence at most one at any instant.  The conversion stage is unreachable:
its only entry, `Batch.py` line 62, raises `AttributeError` before the
conversion call, so no conversion subprocess is ever launched (and no
LockToken mechanism exists from which more than zero tokens could be
outstanding). -/
theorem c1_at_most_one_conversion (cfg : ConversionConfig) (limit nfiles : Nat)
    (s : List TaskPhase)
    (hreach : BatchReachable cfg limit (List.replicate nfiles TaskPhase.waiting) s) :
    activeConversions s = 0 ∧ activeConversions s ≤ 1 := by
  have hinit : activeConversions (List.replicate nfiles TaskPhase.waiting) = 0 := by
    unfold activeConversions
    rw [List.countP_eq_zero]
    intro a ha
    rw [List.mem_replicate] at ha
    rw [ha.2]
    simp
  have h0 := activeConversions_invariant cfg limit _ s hreach hinit
  exact ⟨h0, by omega⟩

/-- C1 witness: a concrete run under the CLI's default configuration —
two files both inside their semaphore slots — has zero (so at most one)
active conversions. -/
theorem c1_at_most_one_conversion_witness :
    activeConversions [TaskPhase.running, TaskPhase.running] = 0 ∧
    activeConversions [TaskPhase.running, TaskPhase.running] ≤ 1 :=
  c1_at_most_one_conversion c7Cfg 4 2 [TaskPhase.running, TaskPhase.running]
    (Relation.ReflTransGen.tail
      (Relation.ReflTransGen.tail .refl
        (@BatchStep.start c7Cfg 4 [] [TaskPhase.waiting] (by decide)))
      (@BatchStep.start c7Cfg 4 [TaskPhase.running] [] (by decide)))
